import Mathlib

/-!
Verification of the bot repository's intent-classification and response
dispatch core (`app/agent/intent_analyzer.py` and
`app/agent/agent_manager.py`), as a shallow embedding.

Messages and reply texts are `List Char`; the small fixed label sets
(roles, intent types, tool names) are `String`.  The regular-expression
patterns of `IntentAnalyzer` are embedded by their denotation under
Python `re.search` semantics (`$` also matches before a single trailing
newline; `.` matches any character except newline; `^` anchors at the
start of the string since `re.MULTILINE` is not used).  The patterns are
compiled with `re.IGNORECASE`, but every call site first lowercases the
message, so the lowercase literals below are exact.
-/

namespace Bot

/-- Characters of the regex class `\s` in the ASCII range, as used by the
intent patterns. -/
def pyIsSpace (c : Char) : Bool :=
  c = ' ' || c = '\t' || c = '\n' || c = '\r' || c = '\x0b' || c = '\x0c'

/-- Lowercasing of a message, modelling `str.lower` on the ASCII alphabet
(character by character, `A`-`Z` mapped to `a`-`z`). -/
def lowerL (s : List Char) : List Char := s.map Char.toLower

/-- Helper for the `$` anchor of Python regexes: a match ending at `$` may
leave exactly one trailing newline unconsumed, so patterns of the form
`...$` are tested against the string with one final newline removed. -/
def stripFinalNewline (s : List Char) : List Char :=
  if s.getLast? = some '\n' then s.dropLast else s

/-- Denotation of `re.search` for the pattern `.+\?$`: somewhere in the
string, one or more non-newline characters followed by `?` at the end
(equivalently, the string ends with `?` preceded by a non-newline
character, up to the trailing-newline allowance of `$`). -/
def searchAnyQmark (s : List Char) : Bool :=
  match (stripFinalNewline s).reverse with
  | q :: c :: _ => q == '?' && c != '\n'
  | _ => false

/-- Denotation of `re.search` for `^W\s.+\?$` where `W` is an
interrogative word: the string starts with `W`, then one whitespace
character, then one or more non-newline characters, then `?` at the end. -/
def matchInterrogQ (w : List Char) (s : List Char) : Bool :=
  let core := stripFinalNewline s
  w.isPrefixOf core &&
    (match core.drop w.length with
     | sp :: rest =>
       pyIsSpace sp &&
         (match rest.reverse with
          | q :: mid => q == '?' && !mid.isEmpty && mid.all (fun c => c != '\n')
          | [] => false)
     | [] => false)

/-- Denotation of `re.search` for `^P\s.+` where `P` is a fixed phrase:
the string starts with `P`, then one whitespace character, then at least
one non-newline character. -/
def matchPhraseStart (w : List Char) (s : List Char) : Bool :=
  w.isPrefixOf s &&
    (match s.drop w.length with
     | sp :: c :: _ => pyIsSpace sp && c != '\n'
     | _ => false)

/-- Denotation of `re.search` for the fully anchored `^W$`: the whole
string is `W`, up to the trailing-newline allowance of `$`. -/
def matchWhole (w : List Char) (s : List Char) : Bool :=
  stripFinalNewline s == w

/-- Disjunction of the eight default `question_patterns`, in their order in
the source (`^what\s.+\?$`, ..., `^can\s.+\?$`, `.+\?$`). -/
def questionMatch (m : List Char) : Bool :=
  matchInterrogQ "what".data m || matchInterrogQ "how".data m ||
  matchInterrogQ "why".data m || matchInterrogQ "when".data m ||
  matchInterrogQ "where".data m || matchInterrogQ "who".data m ||
  matchInterrogQ "can".data m || searchAnyQmark m

/-- Disjunction of the six default `request_patterns`. -/
def requestMatch (m : List Char) : Bool :=
  matchPhraseStart "please".data m || matchPhraseStart "could you".data m ||
  matchPhraseStart "can you".data m || matchPhraseStart "would you".data m ||
  matchPhraseStart "i need".data m || matchPhraseStart "i want".data m

/-- Disjunction of the six default `greeting_patterns`. -/
def greetingMatch (m : List Char) : Bool :=
  matchWhole "hi".data m || matchWhole "hello".data m ||
  matchWhole "hey".data m || matchWhole "good morning".data m ||
  matchWhole "good afternoon".data m || matchWhole "good evening".data m

/-- Disjunction of the five default `farewell_patterns`. -/
def farewellMatch (m : List Char) : Bool :=
  matchWhole "bye".data m || matchWhole "goodbye".data m ||
  matchWhole "see you".data m || matchWhole "talk to you later".data m ||
  matchWhole "farewell".data m

/-- IntentAnalyzer._determine_intent_type: the four rule groups are tried
in order and the first group with a matching pattern decides the label. -/
def determine_intent_type (message : List Char) : String :=
  if questionMatch message then "question"
  else if requestMatch message then "request"
  else if greetingMatch message then "greeting"
  else if farewellMatch message then "farewell"
  else "general"

/-- Substring containment, modelling Python's `needle in haystack` for
strings: the needle occurs contiguously in the haystack. -/
def containsSub (needle : List Char) : List Char → Bool
  | [] => needle.isEmpty
  | c :: rest => needle.isPrefixOf (c :: rest) || containsSub needle rest

/-- IntentAnalyzer.devin_keywords (default list). -/
def devin_keywords : List (List Char) :=
  ["code", "programming", "develop", "build", "create", "generate",
   "analyze", "debug", "fix", "implement", "deploy", "automate"].map String.data

/-- IntentAnalyzer._requires_devin_api: true iff some keyword occurs in the
(lowercased) message. -/
def requires_devin_api (message : List Char) : Bool :=
  devin_keywords.any (fun keyword => containsSub keyword message)

/-- IntentAnalyzer._determine_tool_name. -/
def determine_tool_name (message : List Char) : String :=
  if containsSub "code".data message || containsSub "programming".data message then
    "code_assistant"
  else if containsSub "analyze".data message then
    "code_analyzer"
  else if containsSub "debug".data message || containsSub "fix".data message then
    "code_debugger"
  else
    "general_assistant"

/-- IntentAnalyzer._extract_parameters: currently `{"query": message}`. -/
def extract_parameters (message : List Char) : List (String × List Char) :=
  [("query", message)]

/-- A conversation turn `{"role": ..., "content": ...}`. -/
structure Turn where
  role : String
  content : List Char
deriving Repr, DecidableEq

/-- The intent dict built by IntentAnalyzer.analyze. -/
structure Intent where
  type : String
  requires_devin_api : Bool
  tool_name : Option String
  parameters : List (String × List Char)
  raw_message : List Char
deriving Repr, DecidableEq

/-- IntentAnalyzer.analyze.  The `context` argument is accepted but never
read, exactly as in the source.  The body of the source's `try` block is
total, so the `except` fallback is unreachable and not modelled. -/
def analyze (message : List Char) (context : List Turn) : Intent :=
  let message_lower := lowerL message
  { type := determine_intent_type message_lower
    requires_devin_api := requires_devin_api message_lower
    tool_name :=
      if requires_devin_api message_lower then some (determine_tool_name message_lower)
      else none
    parameters :=
      if requires_devin_api message_lower then extract_parameters message else []
    raw_message := message }

example : (analyze "what time is it?".data []).type = "question" := by decide

example : (analyze "?".data []).type = "general" := by decide

example : (analyze "please debug my script".data []).type = "request" := by decide

example : (analyze "please debug my script".data []).tool_name = some "code_debugger" := by
  decide

example : (analyze "hello".data []).type = "greeting" := by decide

/-!
AgentManager (`app/agent/agent_manager.py`).  The manager's collaborators
(intent analyzer, tool executor, GAS executor) are injected duck-typed
protocol objects; they are modelled as a record of functions, each of
which may raise an exception (`Except Unit`, the exception payload being
irrelevant to control flow).  The conversation-state dict is a structure;
an input state loaded from the store may lack the `intent` key, hence
`Option Intent`.
-/

/-- The conversation-state dict `{"user_id", "context", "intent"}`. -/
structure ConversationState where
  user_id : String
  context : List Turn
  intent : Option Intent
deriving Repr, DecidableEq

/-- Response dict of ToolExecutorProtocol.execute_tool; the `content` key
may be absent. -/
structure ToolResponse where
  content : Option (List Char)
deriving Repr, DecidableEq

/-- Response dict of GASExecutorProtocol.execute_script; `result` and
`error` keys may be absent. -/
structure GasResponse where
  success : Bool
  result : Option (List Char)
  error : Option (List Char)
deriving Repr, DecidableEq

/-- The injected collaborators of AgentManager.  `execute_tool` receives
the value of `intent.get("tool_name", ...)`, which is `None` exactly when
the intent's `tool_name` field is `None` (the key itself is always
present), hence the `Option String` argument. -/
structure Components where
  analyzeIntent : List Char → List Turn → Except Unit Intent
  execute_tool : Option String → List (String × List Char) → List Turn → Except Unit ToolResponse
  execute_script : List Char → List Char → Except Unit GasResponse

/-- Python list slice `l[-m:]` for a non-negative `m`: for `m = 0` the
index `-0` is `0`, so the slice is the whole list, not the empty list. -/
def pyTailSlice (m : Nat) (l : List α) : List α :=
  if m = 0 then l else l.drop (l.length - m)

/-- AgentManager._update_context: copy, append the new turn, and keep only
the last `max_context_length` entries if the result is longer. -/
def update_context (max_context_length : Nat) (context : List Turn)
    (message : List Char) (role : String) : List Turn :=
  let updated_context := context ++ [⟨role, message⟩]
  if max_context_length < updated_context.length then
    pyTailSlice max_context_length updated_context
  else updated_context

/-- AgentManager._create_updated_state: the whole intent dict is stored
under the `intent` key. -/
def create_updated_state (user_id : String) (context : List Turn)
    (intent : Intent) : ConversationState :=
  { user_id := user_id, context := context, intent := some intent }

/-- AgentManager._handle_question_intent (placeholder reply). -/
def handle_question_intent (_intent : Intent) (_context : List Turn) : List Char :=
  "Based on your question, I would say...".data

/-- AgentManager._handle_request_intent (placeholder reply). -/
def handle_request_intent (_intent : Intent) (_context : List Turn) : List Char :=
  "I\x27ll help you with that request...".data

/-- AgentManager._handle_tool_intent: the tool executor's reply `content`,
an apology if that key is absent, and a fixed error string if the call
raises. -/
def handle_tool_intent (comps : Components) (intent : Intent)
    (context : List Turn) : List Char :=
  match comps.execute_tool intent.tool_name intent.parameters context with
  | .ok response => response.content.getD "I couldn\x27t complete the operation.".data
  | .error _ => "I encountered an error while trying to use the required tools.".data

/-- Leftmost occurrence of `sep` in `s`: `some (before, after)` splits `s`
as `before ++ sep ++ after` at the first occurrence, `none` if `sep` does
not occur. -/
def findSep (sep : List Char) : List Char → Option (List Char × List Char)
  | [] => if sep.isEmpty then some ([], []) else none
  | c :: rest =>
    if sep.isPrefixOf (c :: rest) then some ([], (c :: rest).drop sep.length)
    else
      match findSep sep rest with
      | some (b, a) => some (c :: b, a)
      | none => none

theorem findSep_length_lt (sep : List Char) (hsep : sep ≠ []) :
    ∀ s b a, findSep sep s = some (b, a) → a.length < s.length := by
  intro s
  induction s with
  | nil =>
    intro b a h
    simp [findSep, List.isEmpty_iff, hsep] at h
  | cons c rest ih =>
    intro b a h
    rw [findSep] at h
    split at h
    · injection h with h'
      have h2 := congrArg Prod.snd h'
      simp at h2
      subst h2
      have hlen : 0 < sep.length := List.length_pos.mpr hsep
      simp [List.length_drop]
      omega
    · revert h
      split
      · rename_i b' a' hfind
        intro h
        injection h with h'
        have h2 := congrArg Prod.snd h'
        simp at h2
        subst h2
        have := ih b' a' hfind
        simp
        omega
      · intro h
        exact absurd h (by simp)

/-- Python `str.split(sep)` for a non-empty separator: repeatedly cut at
the leftmost occurrence. -/
def splitOnList (sep : List Char) (s : List Char) : List (List Char) :=
  if hsep : sep = [] then [s]
  else
    match h : findSep sep s with
    | none => [s]
    | some (b, a) => b :: splitOnList sep a
termination_by s.length
decreasing_by exact findSep_length_lt sep hsep s b a h

/-- Script selection of AgentManager._handle_gas_intent: if `"```"` occurs
in the raw message and splitting on `"```"` yields at least three pieces,
the script is piece 1 (`code_blocks[1]`); otherwise the whole message. -/
def extractScript (script : List Char) : List Char :=
  if containsSub "```".data script then
    match splitOnList "```".data script with
    | _ :: b :: _ :: _ => b
    | _ => script
  else script

/-- Title string `f"Telegram Execution {intent.get('type', 'script')}"`
(the `type` key is always present in an analyzed intent). -/
def gasTitle (t : String) : List Char := ("Telegram Execution " ++ t).data

/-- Reply formatting of AgentManager._handle_gas_intent for the three
outcomes of `execute_script` (success, failure, raised exception).  The
string literals are reproduced byte-for-byte from the source file, whose
Japanese text is stored double-encoded. -/
def gasDispatch (outcome : Except Unit GasResponse) : List Char :=
  match outcome with
  | .ok response =>
    if response.success then
      "ğŸ‰ ã‚¹ã‚¯ãƒªãƒ—ãƒˆã®å®Ÿè¡Œã«æˆåŠŸã—ã¾ã—ãŸï¼\n\nçµæœ: ".data ++
        response.result.getD "çµæœãŒã‚ã‚Šã¾ã›ã‚“".data
    else
      "âš ï¸ ã‚¹ã‚¯ãƒªãƒ—ãƒˆã®å®Ÿè¡Œä¸­ã«ã‚¨ãƒ©ãƒ¼ãŒç™ºç”Ÿã—ã¾ã—ãŸï¼š\n".data ++
        response.error.getD "ã‚¨ãƒ©ãƒ¼ã®è©³ç´°ãŒã‚ã‚Šã¾ã›ã‚“".data
  | .error _ =>
    "GASã‚¹ã‚¯ãƒªãƒ—ãƒˆã®å®Ÿè¡Œä¸­ã«ã‚¨ãƒ©ãƒ¼ãŒç™ºç”Ÿã—ã¾ã—ãŸã€‚ã‚‚ã†ä¸€åº¦ãŠè©¦ã—ãã ã•ã„ã€‚".data

/-- AgentManager._handle_gas_intent: extract the script from the raw
message and run it through the GAS executor. -/
def handle_gas_intent (comps : Components) (intent : Intent)
    (_context : List Turn) : List Char :=
  gasDispatch
    (comps.execute_script (extractScript intent.raw_message) (gasTitle intent.type))

/-- AgentManager._generate_response.  All handlers below it absorb their
own errors, so the body of its `try` block is total and the `except`
fallback is unreachable. -/
def generate_response (comps : Components) (_message : List Char) (_user_id : String)
    (intent : Intent) (context : List Turn) : List Char :=
  if intent.requires_devin_api then
    if intent.tool_name = some "gas_executor" then handle_gas_intent comps intent context
    else handle_tool_intent comps intent context
  else
    if intent.type = "question" then handle_question_intent intent context
    else if intent.type = "request" then handle_request_intent intent context
    else if intent.type = "greeting" then "Hello! How can I assist you today?".data
    else if intent.type = "farewell" then
      "Goodbye! Feel free to message me anytime you need assistance.".data
    else "I\x27m here to help. What would you like to know or do?".data

/-- Result dict of AgentManager.process_message. -/
structure ProcessResult where
  message : List Char
  conversation_state : ConversationState
deriving Repr, DecidableEq

/-- Body of the `try` block of AgentManager.process_message.  The only
call in the block that can raise is the injected analyzer (`_update_context`
and `_create_updated_state` are total, and `_generate_response` catches
its own errors); an exception escaping it aborts the whole block. -/
def process_message_core (comps : Components) (max_context_length : Nat)
    (message : List Char) (user_id : String)
    (conversation_state : ConversationState) : Except Unit ProcessResult :=
  let context := update_context max_context_length conversation_state.context message "user"
  match comps.analyzeIntent message context with
  | .error e => .error e
  | .ok intent =>
    let response_content := generate_response comps message user_id intent context
    let context2 := update_context max_context_length context response_content "assistant"
    let updated_state := create_updated_state user_id context2 intent
    .ok { message := response_content, conversation_state := updated_state }

/-- AgentManager.process_message: the `try` body, with the `except` arm
returning the fixed apology and the original state. -/
def process_message (comps : Components) (max_context_length : Nat)
    (message : List Char) (user_id : String)
    (conversation_state : ConversationState) : ProcessResult :=
  match process_message_core comps max_context_length message user_id conversation_state with
  | .ok result => result
  | .error _ =>
    { message := "Sorry, I encountered an error while processing your message.".data
      conversation_state := conversation_state }

/-!
Iteration of `process_message`, feeding the returned conversation state
back as the next call's input state (the round-trip of the telegram/line
handlers: load state, process, store the returned state).
-/

/-- Iterated `process_message`: the final state and the list of replies,
one per input message, in order. -/
def iterPM (comps : Components) (max_context_length : Nat) (user_id : String) :
    ConversationState → List (List Char) → ConversationState × List (List Char)
  | st, [] => (st, [])
  | st, m :: ms =>
    let r := process_message comps max_context_length m user_id st
    let rest := iterPM comps max_context_length user_id r.conversation_state ms
    (rest.1, r.message :: rest.2)

/-- True iff no step of the iterated run takes the `except` arm of
`process_message` (every step's `try` body returns normally). -/
def stepsOk (comps : Components) (max_context_length : Nat) (user_id : String) :
    ConversationState → List (List Char) → Bool
  | _, [] => true
  | st, m :: ms =>
    match process_message_core comps max_context_length m user_id st with
    | .ok r => stepsOk comps max_context_length user_id r.conversation_state ms
    | .error _ => false

/-- The chronological transcript of an exchange: user turn then assistant
turn for each message/reply pair. -/
def interleaveTurns : List (List Char) → List (List Char) → List Turn
  | m :: ms, r :: rs => ⟨"user", m⟩ :: ⟨"assistant", r⟩ :: interleaveTurns ms rs
  | _, _ => []

/-- The last `m` elements of a list (all of it if it is shorter). -/
def takeLastN (m : Nat) (l : List α) : List α := l.drop (l.length - m)

/-!
A small allocation model for the mutation claim about `_update_context`:
Python lists live in heap cells addressed by index; `context.copy()`
allocates a fresh cell, `.append` writes in place to a cell, and slicing
allocates a fresh cell.
-/

/-- A heap of list objects; a reference is an index into `cells`. -/
structure ListHeap where
  cells : List (List Turn)
deriving Repr

/-- Dereference (an out-of-range reference reads as `[]`). -/
def ListHeap.read (h : ListHeap) (r : Nat) : List Turn := h.cells.getD r []

/-- Allocate a fresh cell holding `v`; returns the new heap and the fresh
reference. -/
def ListHeap.alloc (h : ListHeap) (v : List Turn) : ListHeap × Nat :=
  (⟨h.cells ++ [v]⟩, h.cells.length)

/-- Overwrite the cell at `r` in place. -/
def ListHeap.write (h : ListHeap) (r : Nat) (v : List Turn) : ListHeap :=
  ⟨h.cells.set r v⟩

/-- AgentManager._update_context at the object level:
`updated_context = context.copy()` (fresh allocation),
`updated_context.append(...)` (in-place write to the fresh cell), and the
slice `updated_context[-max_context_length:]` (a further fresh
allocation).  Returns the heap and the reference of the result. -/
def update_context_ref (max_context_length : Nat) (h : ListHeap) (r : Nat)
    (message : List Char) (role : String) : ListHeap × Nat :=
  let copied := h.alloc (h.read r)
  let h1 := copied.1
  let rc := copied.2
  let h2 := h1.write rc (h1.read rc ++ [⟨role, message⟩])
  if max_context_length < (h2.read rc).length then
    h2.alloc (pyTailSlice max_context_length (h2.read rc))
  else (h2, rc)

/-!
Concrete collaborator stubs used to exercise the theorems on closed
inputs.
-/

/-- Components whose calls always return normally: the real analyzer, a
tool executor answering `done`, and a GAS executor reporting success. -/
def okComponents : Components where
  analyzeIntent := fun m c => .ok (analyze m c)
  execute_tool := fun _ _ _ => .ok ⟨some "done".data⟩
  execute_script := fun _ _ => .ok ⟨true, some "ran".data, none⟩

/-- Like `okComponents` but with a different tool executor (and the same
GAS executor). -/
def altComponents : Components where
  analyzeIntent := fun m c => .ok (analyze m c)
  execute_tool := fun _ _ _ => .ok ⟨some "other".data⟩
  execute_script := fun _ _ => .ok ⟨true, some "ran".data, none⟩

/-- Components whose tool executor raises. -/
def toolRaiseComponents : Components where
  analyzeIntent := fun m c => .ok (analyze m c)
  execute_tool := fun _ _ _ => .error ()
  execute_script := fun _ _ => .error ()

/-- Components whose tool executor answers without a `content` key. -/
def toolNoContentComponents : Components where
  analyzeIntent := fun m c => .ok (analyze m c)
  execute_tool := fun _ _ _ => .ok ⟨none⟩
  execute_script := fun _ _ => .ok ⟨false, none, none⟩

/-- Components whose analyzer raises. -/
def analyzerRaiseComponents : Components where
  analyzeIntent := fun _ _ => .error ()
  execute_tool := fun _ _ _ => .ok ⟨some "done".data⟩
  execute_script := fun _ _ => .ok ⟨true, some "ran".data, none⟩

/-- Script selection as the specification phrases it for the GAS path: the
text between the first pair of (non-overlapping) triple backticks when at
least one fenced block is present, the whole message otherwise. -/
def firstFencedScript (msg : List Char) : List Char :=
  match findSep "```".data msg with
  | some (_, rest) =>
    match findSep "```".data rest with
    | some (mid, _) => mid
    | none => msg
  | none => msg

/-! Supporting lemmas. -/

theorem toLower_ne_newline (c : Char) (hc : c ≠ '\n') : Char.toLower c ≠ '\n' := by
  intro h
  apply hc
  unfold Char.toLower at h
  simp only [] at h
  split at h
  · rename_i hrange
    exfalso
    have h2 : (Char.ofNat (c.toNat + 32)).toNat = c.toNat + 32 := by
      unfold Char.ofNat
      split
      · rfl
      · rename_i hv
        exact absurd (Or.inl (by omega : c.toNat + 32 < 0xd800)) hv
    have h1 := congrArg Char.toNat h
    rw [h2] at h1
    have : ('\n').toNat = 10 := by decide
    omega
  · exact h

theorem update_context_eq_takeLastN (maxLen : Nat) (hml : 1 ≤ maxLen)
    (c : List Turn) (msg : List Char) (role : String) :
    update_context maxLen c msg role = takeLastN maxLen (c ++ [⟨role, msg⟩]) := by
  simp only [update_context, pyTailSlice, takeLastN]
  split
  · rw [if_neg (by omega)]
  · rename_i hlen
    rw [Nat.sub_eq_zero_of_le (by omega), List.drop_zero]

theorem takeLastN_length (m : Nat) (l : List α) :
    (takeLastN m l).length = min m l.length := by
  simp only [takeLastN, List.length_drop]
  omega

theorem takeLastN_absorb (m : Nat) (l s : List α) :
    takeLastN m (takeLastN m l ++ s) = takeLastN m (l ++ s) := by
  simp only [takeLastN]
  rw [← List.drop_append_of_le_length (Nat.sub_le l.length m), List.drop_drop]
  congr 1
  simp only [List.length_drop, List.length_append]
  omega

theorem interleaveTurns_length :
    ∀ ms rs : List (List Char), (interleaveTurns ms rs).length = 2 * min ms.length rs.length := by
  intro ms
  induction ms with
  | nil => intro rs; simp [interleaveTurns]
  | cons m ms ih =>
    intro rs
    cases rs with
    | nil => simp [interleaveTurns]
    | cons r rs =>
      simp only [interleaveTurns, List.length_cons, ih]
      omega

theorem process_message_core_ok {comps : Components} {maxLen : Nat} {m : List Char}
    {uid : String} {st : ConversationState} {r : ProcessResult}
    (h : process_message_core comps maxLen m uid st = .ok r) :
    ∃ i, comps.analyzeIntent m (update_context maxLen st.context m "user") = .ok i ∧
      r.message = generate_response comps m uid i (update_context maxLen st.context m "user") ∧
      r.conversation_state =
        { user_id := uid
          context := update_context maxLen (update_context maxLen st.context m "user")
            r.message "assistant"
          intent := some i } := by
  unfold process_message_core at h
  simp only [] at h
  cases ha : comps.analyzeIntent m (update_context maxLen st.context m "user") with
  | error e =>
    rw [ha] at h
    exact absurd h (by simp)
  | ok i =>
    rw [ha] at h
    injection h with h
    refine ⟨i, rfl, ?_, ?_⟩
    · rw [← h]
    · rw [← h]
      simp [create_updated_state]

theorem process_message_of_core_ok {comps : Components} {maxLen : Nat} {m : List Char}
    {uid : String} {st : ConversationState} {r : ProcessResult}
    (h : process_message_core comps maxLen m uid st = .ok r) :
    process_message comps maxLen m uid st = r := by
  unfold process_message
  rw [h]

theorem iterPM_context (comps : Components) (maxLen : Nat) (uid : String)
    (hml : 1 ≤ maxLen) :
    ∀ (msgs : List (List Char)) (st : ConversationState) (T : List Turn),
      st.context = takeLastN maxLen T →
      stepsOk comps maxLen uid st msgs = true →
      (iterPM comps maxLen uid st msgs).1.context =
        takeLastN maxLen (T ++ interleaveTurns msgs (iterPM comps maxLen uid st msgs).2) ∧
      (iterPM comps maxLen uid st msgs).2.length = msgs.length := by
  intro msgs
  induction msgs with
  | nil =>
    intro st T hc hok
    simp [iterPM, interleaveTurns, hc]
  | cons m ms ih =>
    intro st T hc hok
    rw [stepsOk] at hok
    cases hcore : process_message_core comps maxLen m uid st with
    | error e =>
      rw [hcore] at hok
      simp at hok
    | ok r =>
      rw [hcore] at hok
      have hpm : process_message comps maxLen m uid st = r :=
        process_message_of_core_ok hcore
      obtain ⟨i, _hi, _hmsg, hstate⟩ := process_message_core_ok hcore
      have hctx2 : r.conversation_state.context =
          takeLastN maxLen (T ++ [⟨"user", m⟩, ⟨"assistant", r.message⟩]) := by
        rw [hstate]
        simp only []
        rw [update_context_eq_takeLastN maxLen hml, update_context_eq_takeLastN maxLen hml,
          hc, takeLastN_absorb, List.append_assoc, takeLastN_absorb]
        rfl
      have hih := ih r.conversation_state (T ++ [⟨"user", m⟩, ⟨"assistant", r.message⟩])
        hctx2 hok
      simp only [iterPM, hpm]
      constructor
      · rw [hih.1, interleaveTurns, List.append_assoc]
        rfl
      · simp [hih.2]

theorem containsSub_eq_findSep_isSome (needle : List Char) (hne : needle ≠ []) :
    ∀ s, containsSub needle s = (findSep needle s).isSome := by
  intro s
  induction s with
  | nil => simp [containsSub, findSep, List.isEmpty_iff, hne]
  | cons c rest ih =>
    rw [containsSub, findSep]
    split
    · rename_i hp
      simp [hp]
    · rename_i hp
      rw [Bool.not_eq_true] at hp
      rw [hp, Bool.false_or, ih]
      cases findSep needle rest with
      | none => rfl
      | some ba => rfl

theorem splitOnList_ne_nil (sep s : List Char) : splitOnList sep s ≠ [] := by
  rw [splitOnList.eq_def]
  split
  · simp
  · split <;> simp

theorem splitOnList_eq_match (sep s : List Char) (hne : sep ≠ []) :
    splitOnList sep s =
      match findSep sep s with
      | none => [s]
      | some (b, a) => b :: splitOnList sep a := by
  rw [splitOnList.eq_def, dif_neg hne]
  split
  · rename_i heq
    rw [heq]
  · rename_i b a heq
    rw [heq]

theorem extractScript_eq_firstFenced (msg : List Char) :
    extractScript msg = firstFencedScript msg := by
  unfold extractScript firstFencedScript
  have hne : "```".data ≠ [] := by decide
  cases hf : findSep "```".data msg with
  | none =>
    have hc : containsSub "```".data msg = false := by
      rw [containsSub_eq_findSep_isSome _ hne, hf]
      rfl
    rw [hc, if_neg (by simp)]
  | some ba =>
    obtain ⟨b, rest⟩ := ba
    have hc : containsSub "```".data msg = true := by
      rw [containsSub_eq_findSep_isSome _ hne, hf]
      rfl
    rw [hc, if_pos rfl]
    rw [splitOnList_eq_match _ _ hne, hf]
    simp only []
    rw [splitOnList_eq_match "```".data rest hne]
    cases hf2 : findSep "```".data rest with
    | none => simp
    | some ba2 =>
      obtain ⟨mid, a2⟩ := ba2
      cases hsp : splitOnList "```".data a2 with
      | nil => exact absurd hsp (splitOnList_ne_nil _ _)
      | cons p ps =>
        simp only []
        rw [hsp]

theorem set_concat (l : List α) (v w : α) : (l ++ [v]).set l.length w = l ++ [w] := by
  induction l with
  | nil => rfl
  | cons a l ih => simp [List.set, ih]

theorem getD_concat_length (l : List α) (v d : α) : (l ++ [v]).getD l.length d = v := by
  rw [List.getD_eq_getElem?_getD, List.getElem?_concat_length]
  rfl

/-! Claim theorems. -/

/-- C1 (counterexample): the one-character message `?` ends in `?` but is
classified `general`, not `question`: the final question pattern `.+\?$`
requires at least one character before the question mark, and none of the
other rule groups matches `?` either. -/
theorem analyze_lone_qmark_general :
    "?".data.getLast? = some '?' ∧ (analyze "?".data []).type = "general" ∧
    (analyze "?".data []).type ≠ "question" :=
  ⟨by decide, by decide, by decide⟩

/-- C1 (amended): for every message ending in `?` that has at least one
character before the final `?`, that character not being a newline,
`analyze` returns an intent of type `question` for every context,
regardless of whether the message starts with an interrogative word. -/
theorem analyze_ends_qmark_question (pre : List Char) (x : Char) (c : List Turn)
    (hx : x ≠ '\n') :
    (analyze (pre ++ [x, '?']) c).type = "question" := by
  have htype : (analyze (pre ++ [x, '?']) c).type
      = determine_intent_type (lowerL (pre ++ [x, '?'])) := rfl
  have hlow : lowerL (pre ++ [x, '?']) = (lowerL pre ++ [Char.toLower x]) ++ ['?'] := by
    have h1 : Char.toLower '?' = '?' := by decide
    simp [lowerL, h1]
  have hq : searchAnyQmark (lowerL (pre ++ [x, '?'])) = true := by
    rw [hlow]
    unfold searchAnyQmark stripFinalNewline
    rw [List.getLast?_concat, if_neg (by decide), List.reverse_append,
      List.reverse_append]
    simp only [List.reverse_cons, List.reverse_nil, List.nil_append,
      List.singleton_append, List.cons_append]
    simp [bne_iff_ne, toLower_ne_newline x hx]
  have hqm : questionMatch (lowerL (pre ++ [x, '?'])) = true := by
    unfold questionMatch
    rw [hq]
    simp
  rw [htype]
  simp [determine_intent_type, hqm]

/-- C1 (witness): the message `ok?` is classified `question`. -/
theorem analyze_ends_qmark_question_witness :
    'k' ≠ '\n' ∧ (analyze ("o".data ++ ['k', '?']) []).type = "question" :=
  ⟨by decide, analyze_ends_qmark_question "o".data 'k' [] (by decide)⟩

/-- C2: for every message whose lowercased form contains a devin keyword,
`analyze` sets requires_devin_api and picks the tool name by the fixed
priority chain: code/programming, then analyze, then debug/fix, then the
general fallback. -/
theorem analyze_devin_keyword_tool (m : List Char) (c : List Turn)
    (h : requires_devin_api (lowerL m) = true) :
    (analyze m c).requires_devin_api = true ∧
    (analyze m c).tool_name = some
      (if containsSub "code".data (lowerL m) || containsSub "programming".data (lowerL m) then
        "code_assistant"
      else if containsSub "analyze".data (lowerL m) then "code_analyzer"
      else if containsSub "debug".data (lowerL m) || containsSub "fix".data (lowerL m) then
        "code_debugger"
      else "general_assistant") := by
  constructor
  · exact h
  · show (if requires_devin_api (lowerL m) = true then some (determine_tool_name (lowerL m))
      else none) = _
    rw [if_pos h]
    rw [determine_tool_name]

/-- C2 (witness): `debug this` contains the keyword `debug`, requires the
devin api, and routes to the debugger tool. -/
theorem analyze_devin_keyword_tool_witness :
    (analyze "debug this".data []).requires_devin_api = true ∧
    (analyze "debug this".data []).tool_name = some "code_debugger" := by
  have h := analyze_devin_keyword_tool "debug this".data [] (by decide)
  refine ⟨h.1, ?_⟩
  rw [h.2]
  decide

/-- C4 (counterexample): with `max_context_length = 0` the Python slice
`updated_context[-0:]` is the whole list, so appending to an empty
context yields length 1 > 0 and the claimed bound fails. -/
theorem update_context_zero_unbounded :
    ¬ ((update_context 0 [] "hi".data "user").length ≤ 0) := by decide

/-- C4 (amended): for every `max_context_length ≥ 1` (in particular the
default 10) and every starting context of any length, `_update_context`
returns a context of length at most `max_context_length`; in particular
the bound holds after the two appends performed inside process_message. -/
theorem update_context_length_le (maxLen : Nat) (c : List Turn)
    (msg m1 m2 : List Char) (role : String) (hml : 1 ≤ maxLen) :
    (update_context maxLen c msg role).length ≤ maxLen ∧
    (update_context maxLen (update_context maxLen c m1 "user") m2 "assistant").length
      ≤ maxLen := by
  have hgen : ∀ (c : List Turn) (msg : List Char) (role : String),
      (update_context maxLen c msg role).length ≤ maxLen := by
    intro c msg role
    rw [update_context_eq_takeLastN maxLen hml, takeLastN_length]
    exact Nat.min_le_left _ _
  exact ⟨hgen c msg role, hgen _ m2 "assistant"⟩

/-- C4 (witness): the bound evaluated at the default length 10. -/
theorem update_context_length_le_witness :
    (update_context 10 [] "a".data "user").length ≤ 10 ∧
    (update_context 10 (update_context 10 [] "a".data "user") "b".data "assistant").length
      ≤ 10 :=
  update_context_length_le 10 [] "a".data "a".data "b".data "user" (by decide)

/-- C5: whenever the body of process_message's `try` block raises (any
unhandled exception from the pipeline), process_message returns the
original conversation state unchanged together with the fixed error
string, and never propagates the exception (it is a total function). -/
theorem process_message_error_fallback (comps : Components) (maxLen : Nat)
    (m : List Char) (uid : String) (st : ConversationState) (e : Unit)
    (h : process_message_core comps maxLen m uid st = .error e) :
    process_message comps maxLen m uid st =
      { message := "Sorry, I encountered an error while processing your message.".data
        conversation_state := st } := by
  unfold process_message
  rw [h]

/-- C5 (witness): with an analyzer that raises, the original state is
returned with the fixed apology. -/
theorem process_message_error_fallback_witness :
    process_message analyzerRaiseComponents 10 "hi".data "u" ⟨"u", [], none⟩ =
      { message := "Sorry, I encountered an error while processing your message.".data
        conversation_state := ⟨"u", [], none⟩ } :=
  process_message_error_fallback analyzerRaiseComponents 10 "hi".data "u"
    ⟨"u", [], none⟩ () rfl

/-- C6 (counterexample): after processing `fix the code`, the stored state
keeps the full intent dict under the `intent` key — including
requires_devin_api, tool_name, parameters and raw_message — refuting the
claim that only the type field is retained (there is no `last_intent` key
anywhere in the code). -/
theorem process_message_stores_full_intent :
    (process_message okComponents 10 "fix the code".data "u"
        ⟨"u", [], none⟩).conversation_state.intent =
      some { type := "general", requires_devin_api := true,
             tool_name := some "code_assistant",
             parameters := [("query", "fix the code".data)],
             raw_message := "fix the code".data } := by decide

/-- C6 (amended): after a successful process_message call, the updated
conversation state stores the entire analyzed intent unchanged under the
`intent` key (together with the user id); no projection to the type field
takes place. -/
theorem process_message_state_keeps_intent (comps : Components) (maxLen : Nat)
    (m : List Char) (uid : String) (st : ConversationState) (i : Intent)
    (h : comps.analyzeIntent m (update_context maxLen st.context m "user") = .ok i) :
    (process_message comps maxLen m uid st).conversation_state.intent = some i ∧
    (process_message comps maxLen m uid st).conversation_state.user_id = uid := by
  have hcore : process_message_core comps maxLen m uid st = .ok
      { message := generate_response comps m uid i (update_context maxLen st.context m "user")
        conversation_state := create_updated_state uid
          (update_context maxLen (update_context maxLen st.context m "user")
            (generate_response comps m uid i (update_context maxLen st.context m "user"))
            "assistant") i } := by
    unfold process_message_core
    simp only []
    rw [h]
  rw [process_message_of_core_ok hcore]
  exact ⟨rfl, rfl⟩

/-- C6 (amended, witness): for the message `hi` the stored intent is the
analyzer's full output. -/
theorem process_message_state_keeps_intent_witness :
    (process_message okComponents 10 "hi".data "u"
        ⟨"u", [], none⟩).conversation_state.intent =
      some (analyze "hi".data (update_context 10 [] "hi".data "user")) ∧
    (process_message okComponents 10 "hi".data "u"
        ⟨"u", [], none⟩).conversation_state.user_id = "u" :=
  process_message_state_keeps_intent okComponents 10 "hi".data "u" ⟨"u", [], none⟩ _ rfl

/-- C7: intent classification is insensitive to the conversation context:
`analyze` returns the same intent for the same message under any two
contexts (the context parameter is accepted but never read). -/
theorem analyze_context_insensitive (m : List Char) (c1 c2 : List Turn) :
    analyze m c1 = analyze m c2 := rfl

/-- C3: starting from a state with empty context and iterating
process_message (default max_context_length 10), feeding each returned
conversation state back as the next input state, after the whole run —
provided no step takes the error path — the context equals the last
min(2k, 10) turns of the chronological user/assistant transcript of the
exchange, and in particular has length min(2k, 10). -/
theorem process_message_roundtrip_context (comps : Components) (uid uid0 : String)
    (i0 : Option Intent) (msgs : List (List Char))
    (hk : 1 ≤ msgs.length)
    (hok : stepsOk comps 10 uid ⟨uid0, [], i0⟩ msgs = true) :
    (iterPM comps 10 uid ⟨uid0, [], i0⟩ msgs).1.context =
      takeLastN 10 (interleaveTurns msgs (iterPM comps 10 uid ⟨uid0, [], i0⟩ msgs).2) ∧
    (iterPM comps 10 uid ⟨uid0, [], i0⟩ msgs).1.context.length =
      min (2 * msgs.length) 10 := by
  obtain ⟨h1, h2⟩ := iterPM_context comps 10 uid (by omega) msgs ⟨uid0, [], i0⟩ []
    rfl hok
  simp only [List.nil_append] at h1
  refine ⟨h1, ?_⟩
  rw [h1, takeLastN_length, interleaveTurns_length, h2, Nat.min_self, Nat.min_comm]

/-- C3 (witness): one exchange with the message `hello?` gives a context
of length min(2, 10) = 2 holding the user and assistant turns. -/
theorem process_message_roundtrip_context_witness :
    (iterPM okComponents 10 "u" ⟨"u", [], none⟩ ["hello?".data]).1.context =
      takeLastN 10 (interleaveTurns ["hello?".data]
        (iterPM okComponents 10 "u" ⟨"u", [], none⟩ ["hello?".data]).2) ∧
    (iterPM okComponents 10 "u" ⟨"u", [], none⟩ ["hello?".data]).1.context.length =
      min (2 * (["hello?".data] : List (List Char)).length) 10 :=
  process_message_roundtrip_context okComponents "u" "u" none ["hello?".data]
    (by decide) (by rfl)

/-- C8: for an intent requiring an external tool (and not routed to the
GAS executor), if the tool executor raises then dispatch returns the
fixed tool-error string, and if it returns a response without a content
field then dispatch returns the fixed apology; dispatch never raises (it
is a total function). -/
theorem dispatch_tool_error_strings (comps : Components) (m : List Char) (uid : String)
    (intent : Intent) (ctx : List Turn)
    (h1 : intent.requires_devin_api = true)
    (h2 : intent.tool_name ≠ some "gas_executor") :
    (∀ e, comps.execute_tool intent.tool_name intent.parameters ctx = .error e →
      generate_response comps m uid intent ctx =
        "I encountered an error while trying to use the required tools.".data) ∧
    (∀ resp, comps.execute_tool intent.tool_name intent.parameters ctx = .ok resp →
      resp.content = none →
      generate_response comps m uid intent ctx =
        "I couldn\x27t complete the operation.".data) := by
  have hgen : generate_response comps m uid intent ctx = handle_tool_intent comps intent ctx := by
    unfold generate_response
    rw [h1]
    simp [h2]
  constructor
  · intro e he
    rw [hgen]
    unfold handle_tool_intent
    rw [he]
  · intro resp hresp hcontent
    rw [hgen]
    unfold handle_tool_intent
    rw [hresp]
    simp only []
    rw [hcontent, Option.getD_none]

/-- C8 (witness): for the intent of `debug it`, a raising executor yields
the tool-error string and a content-less response yields the apology. -/
theorem dispatch_tool_error_strings_witness :
    generate_response toolRaiseComponents "debug it".data "u"
        (analyze "debug it".data []) [] =
      "I encountered an error while trying to use the required tools.".data ∧
    generate_response toolNoContentComponents "debug it".data "u"
        (analyze "debug it".data []) [] =
      "I couldn\x27t complete the operation.".data := by
  constructor
  · exact (dispatch_tool_error_strings toolRaiseComponents "debug it".data "u"
      (analyze "debug it".data []) [] (by decide) (by decide)).1 () rfl
  · exact (dispatch_tool_error_strings toolNoContentComponents "debug it".data "u"
      (analyze "debug it".data []) [] (by decide) (by decide)).2 ⟨none⟩ rfl rfl

/-- C9: `_update_context` is non-destructive: in the allocation model, for
any heap cell holding the input context, running the operation leaves
that cell unchanged, returns a reference distinct from the input's, and
the returned cell holds exactly the append-then-truncate result. -/
theorem update_context_ref_frame (maxLen : Nat) (h : ListHeap) (r : Nat)
    (msg : List Char) (role : String) (hr : r < h.cells.length) :
    (update_context_ref maxLen h r msg role).1.read r = h.read r ∧
    (update_context_ref maxLen h r msg role).2 ≠ r ∧
    (update_context_ref maxLen h r msg role).1.read
        (update_context_ref maxLen h r msg role).2 =
      update_context maxLen (h.read r) msg role := by
  unfold update_context_ref ListHeap.alloc ListHeap.write ListHeap.read
  simp only [getD_concat_length, set_concat]
  unfold update_context
  simp only []
  split
  · refine ⟨?_, ?_, ?_⟩
    · show ((h.cells ++ _) ++ _).getD r [] = _
      rw [List.getD_append _ _ _ r (by simp; omega), List.getD_append _ _ _ r hr]
    · show (h.cells ++ _).length ≠ r
      simp
      omega
    · show ((h.cells ++ _) ++ _).getD (h.cells ++ _).length [] = _
      rw [getD_concat_length]
  · refine ⟨?_, ?_, ?_⟩
    · show (h.cells ++ _).getD r [] = _
      rw [List.getD_append _ _ _ r hr]
    · show h.cells.length ≠ r
      omega
    · show (h.cells ++ _).getD h.cells.length [] = _
      rw [getD_concat_length]

/-- C9 (witness): the frame property evaluated on a one-cell heap. -/
theorem update_context_ref_frame_witness :
    (update_context_ref 10 ⟨[[⟨"user", "x".data⟩]]⟩ 0 "y".data "assistant").1.read 0 =
      ListHeap.read ⟨[[⟨"user", "x".data⟩]]⟩ 0 ∧
    (update_context_ref 10 ⟨[[⟨"user", "x".data⟩]]⟩ 0 "y".data "assistant").2 ≠ 0 ∧
    (update_context_ref 10 ⟨[[⟨"user", "x".data⟩]]⟩ 0 "y".data "assistant").1.read
        (update_context_ref 10 ⟨[[⟨"user", "x".data⟩]]⟩ 0 "y".data "assistant").2 =
      update_context 10 (ListHeap.read ⟨[[⟨"user", "x".data⟩]]⟩ 0) "y".data "assistant" :=
  update_context_ref_frame 10 ⟨[[⟨"user", "x".data⟩]]⟩ 0 "y".data "assistant" (by decide)

/-- Intent used to exercise the GAS routing claim. -/
def gasIntentEx : Intent :=
  { type := "general", requires_devin_api := true, tool_name := some "gas_executor",
    parameters := [], raw_message := "run ```a=1``` now".data }

/-- C10: for an intent requiring the devin api with tool name
`gas_executor`, response generation bypasses the tool executor entirely
(it depends only on the components' `execute_script`) and calls the GAS
executor's execute_script on the text between the first pair of triple
backticks of the raw message when a fenced block is present, and on the
whole raw message otherwise. -/
theorem generate_response_gas_route (comps comps2 : Components) (m : List Char)
    (uid : String) (intent : Intent) (ctx : List Turn)
    (h1 : intent.requires_devin_api = true)
    (h2 : intent.tool_name = some "gas_executor") :
    generate_response comps m uid intent ctx =
      gasDispatch (comps.execute_script (firstFencedScript intent.raw_message)
        (gasTitle intent.type)) ∧
    (comps.execute_script = comps2.execute_script →
      generate_response comps m uid intent ctx = generate_response comps2 m uid intent ctx) := by
  have hg : ∀ cc : Components, generate_response cc m uid intent ctx =
      gasDispatch (cc.execute_script (firstFencedScript intent.raw_message)
        (gasTitle intent.type)) := by
    intro cc
    unfold generate_response
    rw [h1, if_pos rfl, if_pos h2]
    unfold handle_gas_intent
    rw [extractScript_eq_firstFenced]
  exact ⟨hg comps, fun he => by rw [hg comps, hg comps2, he]⟩

/-- C10 (witness): the routing evaluated on a concrete GAS intent whose
raw message holds one fenced code block, against two component records
sharing the same GAS executor. -/
theorem generate_response_gas_route_witness :
    generate_response okComponents "m".data "u" gasIntentEx [] =
      gasDispatch (okComponents.execute_script (firstFencedScript gasIntentEx.raw_message)
        (gasTitle gasIntentEx.type)) ∧
    (okComponents.execute_script = altComponents.execute_script →
      generate_response okComponents "m".data "u" gasIntentEx [] =
        generate_response altComponents "m".data "u" gasIntentEx []) :=
  generate_response_gas_route okComponents altComponents "m".data "u" gasIntentEx [] rfl rfl

end Bot
